import Mathlib

/-!
# Verification of the minswap-py fetch-and-cache core

This file gives a shallow embedding of the call-budget governor
(`BlockfrostBackend._limiter`), the monthly-partitioned store
(`minswap.utils._cache_timestamp_data`) and the fetch pipelines
(`minswap.transactions.cache_transactions` / `cache_utxos`), and proves
or refutes the specification's claims about them.

Records are modelled by their `block_time` (Unix seconds) and identity
`hash`; the calendar month/year of a timestamp is computed with the
standard civil-calendar conversion, matching Python's
`datetime.utcfromtimestamp(t).month` / `.year` for the timestamps used.
-/

namespace Minswap

/-- A cached record: the fields the caching core actually reads.
`block_time` is Unix seconds (the source's `datetime` compares
chronologically, which on these timestamps is `Nat` order);
`hash` is the stable identity used by hash-mode merges. -/
structure Record where
  block_time : Nat
  hash : Nat
  deriving DecidableEq, Repr

instance : Inhabited Record := ⟨⟨0, 0⟩⟩

/-! ## Civil calendar: year and month of a Unix timestamp -/

/-- Days-from-epoch to (year, month), the standard civil-from-days
conversion (all intermediate subtractions are nonnegative for
`z ≥ 0`, so `Nat` subtraction agrees with integer subtraction). -/
def civilFromDays (z : Nat) : Nat × Nat :=
  let z' := z + 719468
  let era := z' / 146097
  let doe := z' % 146097
  let yoe := (doe - doe / 1460 + doe / 36524 - doe / 146096) / 365
  let y := yoe + era * 400
  let doy := doe - (365 * yoe + yoe / 4 - yoe / 100)
  let mp := (5 * doy + 2) / 153
  let m := if mp < 10 then mp + 3 else mp - 9
  (if m ≤ 2 then y + 1 else y, m)

/-- Calendar year of a Unix timestamp (`datetime.utcfromtimestamp(t).year`). -/
def yearOf (t : Nat) : Nat := (civilFromDays (t / 86400)).1

/-- Calendar month of a Unix timestamp (`datetime.utcfromtimestamp(t).month`). -/
def monthOf (t : Nat) : Nat := (civilFromDays (t / 86400)).2

/-! ## Sorting by timestamp (`df.sort_values(by="block_time")`) -/

/-- Timestamp order on records. -/
def timeLE (a b : Record) : Prop := a.block_time ≤ b.block_time

instance : DecidableRel timeLE := fun a b => Nat.decLe a.block_time b.block_time

instance : IsTotal Record timeLE := ⟨fun a b => Nat.le_total a.block_time b.block_time⟩

instance : IsTrans Record timeLE := ⟨fun _ _ _ => Nat.le_trans⟩

/-- Sort records by `block_time` ascending (`sort_values(by="block_time")`). -/
def sortByTime (l : List Record) : List Record := List.insertionSort timeLE l

/-! ## The month-change split of `_cache_timestamp_data` (utils.py lines 225-231) -/

/-- First index `i` such that `ms[i] ≠ ms[i+1]` (the `for index in
range(len(data) - 1)` scan of utils.py lines 228-231). -/
def firstChange : List Nat → Option Nat
  | [] => none
  | [_] => none
  | a :: b :: rest =>
    if a ≠ b then some 0 else (firstChange (b :: rest)).map (· + 1)

/-- The split index of utils.py lines 225-231: if the first and last
records have equal month-of-year numbers, the whole list; otherwise one
past the first adjacent pair with different month numbers.  (The `none`
fallback mirrors Python's loop falling through without `break`, leaving
`index = len(data) - 2`; it is unreachable because differing first/last
months force an adjacent change.) -/
def splitIndex (data : List Record) : Nat :=
  match data with
  | [] => 0
  | d0 :: tl =>
    if monthOf d0.block_time = monthOf (((d0 :: tl).getLastD d0).block_time) then
      (d0 :: tl).length
    else
      match firstChange ((d0 :: tl).map (fun r => monthOf r.block_time)) with
      | some i => i + 1
      | none => (d0 :: tl).length - 2

/-! ## The partitioned store and its file operations -/

/-- File-system operations performed by `_cache_timestamp_data`
(utils.py lines 259-284), tagged with the partition name `YYYYMM`. -/
inductive FsOp where
  | writeTemp (name : Nat) (content : List Record)
  | unlinkOrig (name : Nat)
  | renameTempToOrig (name : Nat)
  | writeNew (name : Nat) (content : List Record)
  deriving DecidableEq, Repr

/-- The on-disk store: partition name `YYYYMM ↦ partition content`. -/
abbrev Store := List (Nat × List Record)

/-- Partition name `YYYYMM` as a number (utils.py lines 254-256:
`f"{year}{month:02d}.arrow"` from the first record after sorting). -/
def partitionName (r : Record) : Nat :=
  yearOf r.block_time * 100 + monthOf r.block_time

/-- The merge filter of utils.py lines 263-270: in hash mode keep the
incoming rows whose hash is in `set(df.hash) - set(cache_df.hash)`;
in timestamp mode keep rows strictly later than the last stored
`block_time`.  (The store never holds an empty partition, so the
`getLastD` default is never consulted on reachable inputs.) -/
def mergeFilter (hashFilter : Bool) (cacheContent df : List Record) : List Record :=
  if hashFilter then
    let uniqueHashes :=
      (df.map (fun r => r.hash)).filter
        (fun h => ¬ (cacheContent.map (fun r => r.hash)).contains h)
    df.filter (fun r => uniqueHashes.contains r.hash)
  else
    let threshold := (cacheContent.getLastD default).block_time
    df.filter (fun r => decide (threshold < r.block_time))

/-- The existing-partition branch of utils.py lines 260-278: filter the
incoming frame, and when anything survives, concatenate, re-sort, write
a temp file, unlink the original and rename the temp over it.  Returns
the file operations performed and the new content (`none` = the file
was not rewritten). -/
def flushExisting (cacheContent df : List Record) (name : Nat) (hashFilter : Bool) :
    List FsOp × Option (List Record) :=
  let filtered := mergeFilter hashFilter cacheContent df
  if 0 < filtered.length then
    let merged := sortByTime (cacheContent ++ filtered)
    ([FsOp.writeTemp name merged, FsOp.unlinkOrig name, FsOp.renameTempToOrig name],
      some merged)
  else
    ([], none)

/-- Replace or insert a partition in the store. -/
def storeSet (s : Store) (k : Nat) (v : List Record) : Store :=
  match s with
  | [] => [(k, v)]
  | (k', v') :: rest =>
    if k' = k then (k, v) :: rest else (k', v') :: storeSet rest k v

/-- Shallow embedding of `minswap.utils._cache_timestamp_data` (the
pydantic-record branch): split the buffer at the month change, sort the
prefix, name the partition from its earliest record, create or merge the
partition file, and return the unflushed suffix `data[index:]`.
Returns (new store, file operations, remainder).  The source indexes
`data[0]` and so cannot be called on an empty list; the model returns a
no-op in that case. -/
def cacheTimestampData (store : Store) (data : List Record) (hashFilter : Bool) :
    Store × List FsOp × List Record :=
  let index := splitIndex data
  let df := sortByTime (data.take index)
  match df.head? with
  | none => (store, [], data.drop index)
  | some d0 =>
    let name := partitionName d0
    match store.lookup name with
    | some cacheContent =>
      match flushExisting cacheContent df name hashFilter with
      | (ops, some merged) => (storeSet store name merged, ops, data.drop index)
      | (ops, none) => (store, ops, data.drop index)
    | none => (storeSet store name df, [FsOp.writeNew name df], data.drop index)

/-! ## The call-budget governor (`BlockfrostBackend._limiter`, utils.py 64-84)

Only the hard-quota path is modelled (the `num_limit_calls` burst path
sleeps on wall-clock time, which does not affect the quota check).  One
acquire increments `total_calls` and raises `BlockfrostCallLimit` when
the incremented counter is `>= max_total_calls`. -/

/-- One `_limiter` call on the quota counter: `error` is the raised
`BlockfrostCallLimit` (carrying the counter at raise time), `ok` the
counter after a granted call. -/
def limiterStep (maxTotal totalCalls : Nat) : Except Nat Nat :=
  let t := totalCalls + 1
  if maxTotal ≤ t then Except.error t else Except.ok t

/-- Run `n` consecutive `_limiter` calls starting from `total_calls = 0`;
stops at the first raise. -/
def runAcquires (maxTotal : Nat) : Nat → Except Nat Nat
  | 0 => Except.ok 0
  | n + 1 =>
    match runAcquires maxTotal n with
    | Except.ok t => limiterStep maxTotal t
    | Except.error e => Except.error e

/-! ## `cache_utxos` call accounting (transactions.py 260-362) -/

/-- Shallow embedding of the call accounting of
`minswap.transactions.cache_utxos`: `cacheLen` is the number of
transactions still needing utxos after the utxo-cache filter.  The
executor maps `get_utxo` over `cache.tx_hash[:last_index]` with
`last_index = min(max_calls, len(cache))`, so `last_index` remote calls
are issued in both branches; but only the `progress=False` branch
increments `num_calls`, the value the function returns.  Result:
(remote calls issued, value returned). -/
def cacheUtxosModel (cacheLen maxCalls : Nat) (progress : Bool) : Nat × Nat :=
  if cacheLen = 0 then (0, 0)
  else
    let lastIndex := min maxCalls cacheLen
    let numCalls := if progress then 0 else lastIndex
    (lastIndex, numCalls)

/-! ## The `cache_transactions` fetch pipeline (transactions.py 208-257) -/

/-- One fetch round's result collection (transactions.py 224-231): for
each page result in order, a non-full page sets `done`; an empty page
breaks out of the collection loop without being incorporated; every
other page is appended to the buffer. -/
def processRound : List (List Record) → List Record → Bool → Bool × List Record
  | [], buf, done => (done, buf)
  | t :: rest, buf, done =>
    if t.length ≠ 100 then
      if t.length = 0 then (true, buf)
      else processRound rest (buf ++ t) true
    else processRound rest (buf ++ t) done

/-- The post-round flush loop (transactions.py 234-246), fuel-indexed:
while the buffer is non-empty and its first and last records have
different month-of-year numbers, flush through `_cache_timestamp_data`
and keep the remainder.  Each flush removes at least one record, so
fuel `buf.length` (supplied by `flushLoop`) never runs out. -/
def flushLoopAux : Nat → Store → List Record → Store × List Record
  | 0, store, buf => (store, buf)
  | fuel + 1, store, buf =>
    if buf ≠ [] ∧
        monthOf ((buf.headD default).block_time) ≠
          monthOf ((buf.getLastD default).block_time) then
      flushLoopAux fuel (cacheTimestampData store buf false).1
        (cacheTimestampData store buf false).2.2
    else
      (store, buf)

/-- The post-round flush loop (transactions.py 234-246). -/
def flushLoop (store : Store) (buf : List Record) : Store × List Record :=
  flushLoopAux buf.length store buf

/-- Result of a `cache_transactions` run. -/
structure RunResult where
  numCalls : Nat
  requested : List Nat
  done : Bool
  buffer : List Record
  store : Store

/-- The main fetch loop of `cache_transactions` (transactions.py
212-247), with explicit fuel (each iteration increases `numCalls` by at
least one when `callBatch ≥ 1`, so fuel `maxCalls + 1` never runs out).
Exits when `done` or `numCalls ≥ maxCalls`; otherwise clips the batch to
the remaining budget, requests pages `page .. page+batch-1`, collects
them, runs the flush loop, and advances the page cursor by the
(possibly clipped) batch. -/
def fetchLoop (remote : Nat → List Record) (maxCalls : Nat) :
    Nat → Nat → Nat → Nat → Bool → List Record → List Nat → Store → RunResult
  | 0, _, _, numCalls, done, buf, req, store =>
    ⟨numCalls, req, done, buf, store⟩
  | fuel + 1, page, callBatch, numCalls, done, buf, req, store =>
    if done || decide (maxCalls ≤ numCalls) then
      ⟨numCalls, req, done, buf, store⟩
    else
      let cb := if maxCalls < numCalls + callBatch then maxCalls - numCalls else callBatch
      let pages := (List.range cb).map (fun i => page + i)
      let round := processRound (pages.map remote) buf done
      let flushed := flushLoop store round.2
      fetchLoop remote maxCalls fuel (page + cb) cb (numCalls + cb) round.1
        flushed.2 (req ++ pages) flushed.1

/-- Planner resume (transactions.py line 156): `page = len(cache) // 100 + 1`. -/
def planStartPage (cacheLen : Nat) : Nat := cacheLen / 100 + 1

/-- Shallow embedding of `minswap.transactions.cache_transactions`:
plan the start page from the cache (page 1 when no cache exists),
default the batch width to 1 when the throughput estimate yields 0, run
the fetch loop, and flush any final buffered records (transactions.py
249-255; the source discards that final call's return value). -/
def cacheTransactionsModel (remote : Nat → List Record) (cacheLen : Option Nat)
    (maxCalls callBatch : Nat) (store : Store) : RunResult :=
  let page := match cacheLen with
    | some n => planStartPage n
    | none => 1
  let cb := if callBatch = 0 then 1 else callBatch
  let r := fetchLoop remote maxCalls (maxCalls + 1) page cb 0 false [] [] store
  { r with
    store := if r.buffer.isEmpty then r.store
             else (cacheTimestampData r.store r.buffer false).1 }

/-! ## Disk-level view of a merge, for atomicity analysis -/

/-- The two files a merge touches: the original partition file and the
temporary `_temp.arrow` file (`none` = absent). -/
structure Disk where
  orig : Option (List Record)
  temp : Option (List Record)
  deriving DecidableEq, Repr

/-- Effect of one file operation on the disk. -/
def applyOp (d : Disk) : FsOp → Disk
  | FsOp.writeTemp _ c => { d with temp := some c }
  | FsOp.unlinkOrig _ => { d with orig := none }
  | FsOp.renameTempToOrig _ => { orig := d.temp, temp := none }
  | FsOp.writeNew _ c => { d with orig := some c }

/-- Run a prefix of the merge's file operations; `runOps d (ops.take k)`
is the disk state when the flush aborts just before the `k`-th
operation. -/
def runOps (d : Disk) (ops : List FsOp) : Disk := ops.foldl applyOp d

/-! ## The end-to-end scenario of spec §8 (claim C7) -/

/-- A record for the simulated remote (timestamp 2023-01-15, so every
page is inside one calendar month). -/
def pageRecord : Record := ⟨1673740800, 0⟩

/-- The simulated remote source of spec §8: 100-record pages 1-5, a
37-record page 6, a 0-record page 7 (and beyond). -/
def scenarioRemote (p : Nat) : List Record :=
  if p ≤ 5 then List.replicate 100 pageRecord
  else if p = 6 then List.replicate 37 pageRecord
  else []

/-- The scenario run: fresh cache, `concurrency_limit = 3`, ample call
budget. -/
def scenarioRun : RunResult := cacheTransactionsModel scenarioRemote none 20 3 []

/-! ## Helper lemmas -/

/-- `List.contains` agrees with membership for `Nat` keys. -/
theorem natList_contains_iff (l : List Nat) (a : Nat) : l.contains a = true ↔ a ∈ l := by
  simp [List.contains, List.elem_iff]

/-- Every branch of `_cache_timestamp_data` returns the unflushed
suffix `data[index:]`. -/
theorem cacheTimestampData_remainder (store : Store) (data : List Record) (hf : Bool) :
    (cacheTimestampData store data hf).2.2 = data.drop (splitIndex data) := by
  simp only [cacheTimestampData]
  split
  · rfl
  · split
    · split
      · rfl
      · rfl
    · rfl

/-- Looking up the key just set in the store. -/
theorem storeSet_lookup_self (s : Store) (k : Nat) (v : List Record) :
    (storeSet s k v).lookup k = some v := by
  induction s with
  | nil => simp [storeSet, List.lookup]
  | cons p rest ih =>
    obtain ⟨k', v'⟩ := p
    by_cases h : k' = k
    · simp [storeSet, h, List.lookup]
    · have hbeq : (k == k') = false := by
        simp only [beq_eq_false_iff_ne]
        exact fun he => h he.symm
      simp only [storeSet, if_neg h, List.lookup, hbeq]
      exact ih

/-- Characterization of `firstChange`: the returned index is the first
position where adjacent entries differ. -/
theorem firstChange_spec (ms : List Nat) (i : Nat) (h : firstChange ms = some i) :
    ms.getD i 0 ≠ ms.getD (i + 1) 0 ∧
      ∀ j, j < i → ms.getD j 0 = ms.getD (j + 1) 0 := by
  induction ms generalizing i with
  | nil => simp [firstChange] at h
  | cons a rest ih =>
    cases rest with
    | nil => simp [firstChange] at h
    | cons b rest' =>
      by_cases hab : a = b
      · rw [firstChange, if_neg (by simpa using hab)] at h
        obtain ⟨i', hi', rfl⟩ := Option.map_eq_some'.mp h
        obtain ⟨hne, hpre⟩ := ih i' hi'
        refine ⟨by simpa using hne, ?_⟩
        intro j hj
        cases j with
        | zero => simpa using hab
        | succ j' =>
          have := hpre j' (by omega)
          simpa using this
      · rw [firstChange, if_pos (by simpa using hab)] at h
        obtain rfl : (0 : Nat) = i := (Option.some.injEq _ _).mp h
        exact ⟨by simpa using hab, fun j hj => by omega⟩

/-! ## C1 — budget enforcement boundary -/

/-- C1 counterexample: with `max_total_calls = 2` the second `acquire`
already raises `BlockfrostCallLimit` (utils.py line 69 checks
`total_calls >= max_total_calls` after incrementing), refuting the
claim that every one of the first `max_total_calls` calls succeeds. -/
theorem c1_budget_boundary_cex : runAcquires 2 2 = Except.error 2 := rfl

/-- C1 (amended): starting from `total_calls = 0`, the first
`max_total_calls - 1` acquires succeed, and the `max_total_calls`-th
acquire raises `BlockfrostCallLimit` — one call earlier than the spec
states. -/
theorem c1_budget_boundary (maxTotal : Nat) (hpos : 0 < maxTotal) :
    (∀ n, n < maxTotal → runAcquires maxTotal n = Except.ok n) ∧
      runAcquires maxTotal maxTotal = Except.error maxTotal := by
  have hok : ∀ n, n < maxTotal → runAcquires maxTotal n = Except.ok n := by
    intro n
    induction n with
    | zero => intro _; rfl
    | succ k ih =>
      intro hk
      have hk' : k < maxTotal := Nat.lt_of_succ_lt hk
      rw [runAcquires, ih hk']
      simp only [limiterStep]
      rw [if_neg (by omega)]
  refine ⟨hok, ?_⟩
  cases maxTotal with
  | zero => omega
  | succ m =>
    rw [runAcquires, hok m (Nat.lt_succ_self m)]
    simp only [limiterStep]
    rw [if_pos (by omega)]

/-- C1 witness: at `max_total_calls = 3`, calls 1 and 2 succeed and
call 3 raises. -/
theorem c1_budget_boundary_witness :
    0 < 3 ∧ runAcquires 3 2 = Except.ok 2 ∧ runAcquires 3 3 = Except.error 3 :=
  ⟨by decide, (c1_budget_boundary 3 (by decide)).1 2 (by decide),
    (c1_budget_boundary 3 (by decide)).2⟩

/-! ## C5 — call accounting of the fetch pipelines -/

/-- C5: `cache_utxos` with `progress=True` issues
`min(max_calls, len(cache))` remote calls but returns 0, because the
progress branch (transactions.py 321-343) never increments `num_calls`;
the `progress=False` branch returns the true count.  With 5 pending
transactions and `max_calls = 10`, 5 calls are issued yet 0 is
returned, refuting "the value returned equals the number of remote
calls actually issued, in every execution mode". -/
theorem c5_utxo_call_miscount :
    (cacheUtxosModel 5 10 true).1 = 5 ∧ (cacheUtxosModel 5 10 true).2 = 0 ∧
      (cacheUtxosModel 5 10 false).2 = 5 := by decide

/-! ## C9 — planner resume -/

/-- C9: the planner computes `start_page = record_count / 100 + 1`
(transactions.py line 156); a cache with 250 records resumes at page 3,
and the pipeline's first request in that state is page 3. -/
theorem c9_planner_resume :
    planStartPage 250 = 3 ∧ (∀ n, planStartPage n = n / 100 + 1) ∧
      (cacheTransactionsModel (fun _ => []) (some 250) 10 1 []).requested = [3] := by
  exact ⟨by decide, fun n => rfl, by decide⟩

/-! ## C2 — merge correctness, timestamp mode -/

/-- C2: merging an incoming frame into an existing partition in
timestamp mode (utils.py 268-278) yields a partition holding the
original records plus exactly the incoming records with timestamp
strictly greater than the partition's last (= maximum) stored
timestamp `T`, sorted ascending, with no duplicates. -/
theorem c2_merge_timestamp (cacheContent df : List Record) (name : Nat) (T : Nat)
    (hT : T = (cacheContent.getLastD default).block_time)
    (hmax : ∀ r ∈ cacheContent, r.block_time ≤ T)
    (hnodupC : cacheContent.Nodup) (hnodupD : df.Nodup)
    (hle : ∃ r ∈ df, r.block_time ≤ T)
    (hgt : ∃ r ∈ df, T < r.block_time) :
    ∃ merged,
      (flushExisting cacheContent df name false).2 = some merged ∧
        merged.Perm
          (cacheContent ++ df.filter (fun r => decide (T < r.block_time))) ∧
        List.Sorted timeLE merged ∧ merged.Nodup := by
  have hfe : mergeFilter false cacheContent df
      = df.filter (fun r => decide (T < r.block_time)) := by
    rw [hT]; rfl
  have hpos : 0 < (df.filter (fun r => decide (T < r.block_time))).length := by
    obtain ⟨r, hr, hrT⟩ := hgt
    have hm : r ∈ df.filter (fun r => decide (T < r.block_time)) :=
      List.mem_filter.mpr ⟨hr, decide_eq_true hrT⟩
    exact List.length_pos.mpr (fun hnil => by simp [hnil] at hm)
  refine ⟨sortByTime (cacheContent ++ df.filter (fun r => decide (T < r.block_time))),
    ?_, ?_, ?_, ?_⟩
  · simp only [flushExisting, hfe, if_pos hpos]
  · exact List.perm_insertionSort timeLE _
  · exact List.sorted_insertionSort timeLE _
  · have hperm : (sortByTime (cacheContent ++
        df.filter (fun r => decide (T < r.block_time)))).Perm
        (cacheContent ++ df.filter (fun r => decide (T < r.block_time))) :=
      List.perm_insertionSort timeLE _
    rw [hperm.nodup_iff]
    refine List.nodup_append.mpr ⟨hnodupC, hnodupD.filter _, ?_⟩
    intro a haC haF
    have h1 : a.block_time ≤ T := hmax a haC
    have h2 : T < a.block_time := of_decide_eq_true (List.mem_filter.mp haF).2
    omega

/-- C2 witness: a concrete partition with maximum timestamp 20 merged
with an incoming frame containing timestamps 15 (dropped) and 25
(kept). -/
theorem c2_merge_timestamp_witness :
    (20 = ((([⟨10, 1⟩, ⟨20, 2⟩] : List Record)).getLastD default).block_time) ∧
      (∀ r ∈ ([⟨10, 1⟩, ⟨20, 2⟩] : List Record), r.block_time ≤ 20) ∧
      (∃ merged,
        (flushExisting [⟨10, 1⟩, ⟨20, 2⟩] [⟨15, 3⟩, ⟨25, 4⟩] 202301 false).2
            = some merged ∧
          merged.Perm ([⟨10, 1⟩, ⟨20, 2⟩] ++
            ([⟨15, 3⟩, ⟨25, 4⟩] : List Record).filter
              (fun r => decide (20 < r.block_time))) ∧
          List.Sorted timeLE merged ∧ merged.Nodup) := by
  refine ⟨by decide, by decide, ?_⟩
  exact c2_merge_timestamp [⟨10, 1⟩, ⟨20, 2⟩] [⟨15, 3⟩, ⟨25, 4⟩] 202301 20 (by decide)
    (by decide) (by decide) (by decide) (by decide) (by decide)

/-! ## C8 — merge correctness, hash mode -/

/-- C8: a hash-mode merge (utils.py 263-267) leaves the partition
holding, as a multiset, the original records plus exactly the incoming
records whose identity hash is not already present in the partition;
every original record is retained.  (When nothing survives the filter
the file is not rewritten and the content is unchanged, which the
statement covers through `getD`.) -/
theorem c8_merge_hash (cacheContent df : List Record) (name : Nat) :
    (((flushExisting cacheContent df name true).2).getD cacheContent).Perm
      (cacheContent ++
        df.filter (fun r => !((cacheContent.map (fun x => x.hash)).contains r.hash))) := by
  have hfe : mergeFilter true cacheContent df
      = df.filter (fun r => !((cacheContent.map (fun x => x.hash)).contains r.hash)) := by
    rw [show mergeFilter true cacheContent df
        = df.filter (fun r =>
            (((df.map (fun r => r.hash)).filter
              (fun h => ¬ (cacheContent.map (fun r => r.hash)).contains h)).contains
              r.hash)) from rfl]
    apply List.filter_congr
    intro r hr
    cases hc : (cacheContent.map (fun x => x.hash)).contains r.hash with
    | true =>
      have hnotmem : r.hash ∉ (df.map (fun r => r.hash)).filter
          (fun h => ¬ (cacheContent.map (fun r => r.hash)).contains h) := by
        intro hmem
        exact (of_decide_eq_true (List.mem_filter.mp hmem).2) hc
      simp only [hc, Bool.not_true]
      exact Bool.eq_false_iff.mpr
        (fun htrue => hnotmem ((natList_contains_iff _ _).mp htrue))
    | false =>
      have hfalse : ¬ ((cacheContent.map (fun r => r.hash)).contains r.hash = true) := by
        rw [hc]; exact Bool.false_ne_true
      have hmem : r.hash ∈ (df.map (fun r => r.hash)).filter
          (fun h => ¬ (cacheContent.map (fun r => r.hash)).contains h) :=
        List.mem_filter.mpr ⟨List.mem_map_of_mem (fun r => r.hash) hr,
          decide_eq_true hfalse⟩
      simp only [hc, Bool.not_false]
      exact (natList_contains_iff _ _).mpr hmem
  by_cases hpos : 0 < (mergeFilter true cacheContent df).length
  · simp only [flushExisting, if_pos hpos, Option.getD_some]
    rw [hfe] at hpos ⊢
    exact List.perm_insertionSort timeLE _
  · simp only [flushExisting, if_neg hpos, Option.getD_none]
    have hnil : df.filter
        (fun r => !((cacheContent.map (fun x => x.hash)).contains r.hash)) = [] := by
      rw [← hfe]
      rcases h : mergeFilter true cacheContent df with _ | ⟨a, l⟩
      · rfl
      · rw [h] at hpos; simp at hpos
    rw [hnil]
    simp

/-! ## C10 — no-op frame on a fully-filtered merge -/

/-- C10: when the merge filter removes every incoming record
(timestamp mode: no incoming timestamp exceeds the stored maximum;
hash mode: every incoming identity hash is already present),
`_cache_timestamp_data` performs no file operation — no temp write, no
unlink, no rename — leaves the store unchanged, and still returns the
post-split remainder `data[index:]` (utils.py 272-278, 286). -/
theorem c10_fully_filtered_noop (store : Store) (data : List Record) (hf : Bool)
    (cacheContent : List Record) (d0 : Record)
    (hhead : (sortByTime (data.take (splitIndex data))).head? = some d0)
    (hlook : store.lookup (partitionName d0) = some cacheContent)
    (hcond :
      (hf = false ∧ ∀ r ∈ sortByTime (data.take (splitIndex data)),
          r.block_time ≤ (cacheContent.getLastD default).block_time) ∨
      (hf = true ∧ ∀ r ∈ sortByTime (data.take (splitIndex data)),
          r.hash ∈ cacheContent.map (fun x => x.hash))) :
    cacheTimestampData store data hf = (store, [], data.drop (splitIndex data)) := by
  have hempty : mergeFilter hf cacheContent
      (sortByTime (data.take (splitIndex data))) = [] := by
    rcases hcond with ⟨rfl, hall⟩ | ⟨rfl, hall⟩
    · rw [show mergeFilter false cacheContent (sortByTime (data.take (splitIndex data)))
          = (sortByTime (data.take (splitIndex data))).filter
              (fun r => decide ((cacheContent.getLastD default).block_time
                < r.block_time)) from rfl]
      rw [List.filter_eq_nil_iff]
      intro r hr hdec
      have h1 := of_decide_eq_true hdec
      have h2 := hall r hr
      omega
    · rw [show mergeFilter true cacheContent (sortByTime (data.take (splitIndex data)))
          = (sortByTime (data.take (splitIndex data))).filter
              (fun r =>
                (((sortByTime (data.take (splitIndex data))).map (fun r => r.hash)).filter
                  (fun h => ¬ (cacheContent.map (fun r => r.hash)).contains h)).contains
                  r.hash) from rfl]
      rw [List.filter_eq_nil_iff]
      intro r hr hdec
      have hmem := (natList_contains_iff _ _).mp hdec
      have hpred := (List.mem_filter.mp hmem).2
      exact (of_decide_eq_true hpred) ((natList_contains_iff _ _).mpr (hall r hr))
  have hflush : flushExisting cacheContent (sortByTime (data.take (splitIndex data)))
      (partitionName d0) hf = ([], none) := by
    simp only [flushExisting, hempty, List.length_nil, Nat.lt_irrefl, if_false]
  simp only [cacheTimestampData]
  rw [hhead]
  dsimp only
  rw [hlook]
  dsimp only
  rw [hflush]

/-- C10 witness: a single-record flush whose timestamp does not exceed
the stored maximum of the existing `202301` partition: no file
operation, unchanged store, empty remainder. -/
theorem c10_fully_filtered_noop_witness :
    ((sortByTime ((([⟨1673740800, 1⟩] : List Record)).take
          (splitIndex [⟨1673740800, 1⟩]))).head? = some ⟨1673740800, 1⟩) ∧
      (([(202301, [⟨1674172800, 9⟩])] : Store).lookup
          (partitionName ⟨1673740800, 1⟩) = some [⟨1674172800, 9⟩]) ∧
      cacheTimestampData [(202301, [⟨1674172800, 9⟩])] [⟨1673740800, 1⟩] false
        = ([(202301, [⟨1674172800, 9⟩])], [], []) := by
  refine ⟨by decide, by decide, ?_⟩
  have h := c10_fully_filtered_noop [(202301, [⟨1674172800, 9⟩])] [⟨1673740800, 1⟩]
    false [⟨1674172800, 9⟩] ⟨1673740800, 1⟩ (by decide) (by decide)
    (Or.inl ⟨rfl, by decide⟩)
  exact h.trans (by decide)

/-! ## C3 — partition month invariant (violated by the code) -/

/-- A sorted three-record buffer: 2023-01-15, 2023-02-10, 2024-01-20.
Its first and last records share month-of-year 1, so the split scan of
utils.py line 225 is skipped entirely. -/
def monthBugData : List Record :=
  [⟨1673740800, 1⟩, ⟨1675987200, 2⟩, ⟨1705708800, 3⟩]

/-- C3 is violated by the code: flushing `monthBugData` into an empty
store persists all three records — including the 2023-02-10 and
2024-01-20 ones — into the partition file named `202301`, because
`_cache_timestamp_data` compares only the month-of-year numbers
(`.month`, ignoring the year) of the first and last records
(utils.py 225-231).  So `202301.arrow` holds records whose calendar
year/month is not 2023-01. -/
theorem c3_month_invariant_bug :
    (cacheTimestampData [] monthBugData false).1.lookup 202301 = some monthBugData ∧
      ∃ r ∈ monthBugData,
        ¬ (yearOf r.block_time = 2023 ∧ monthOf r.block_time = 1) := by
  exact ⟨by decide, by decide⟩

/-! ## C4 — flush split rule (corrected) -/

/-- A sorted buffer with month-of-year numbers 3, 4, 3 (2023-03-15,
2023-04-10, 2024-03-20): a calendar month change exists at index 1, but
the first and last records share month-of-year 3. -/
def splitGuardData : List Record :=
  [⟨1678838400, 1⟩, ⟨1681084800, 2⟩, ⟨1710892800, 3⟩]

/-- C4 counterexample: on `splitGuardData` the claim demands a split at
index 1 (the first calendar-month change between consecutive records)
with the non-empty `records[1:]` returned unflushed; but the code's
first/last month-of-year guard (utils.py line 225) sets
`index = len(data)` and returns nothing. -/
theorem c4_flush_split_cex :
    monthOf (splitGuardData.getD 0 default).block_time ≠
        monthOf (splitGuardData.getD 1 default).block_time ∧
      splitGuardData.drop 1 ≠ [] ∧
      splitIndex splitGuardData = 3 ∧
      (cacheTimestampData [] splitGuardData false).2.2 = [] := by decide

/-- When no partition file exists under the computed name, the flush
creates it with exactly the sorted split prefix. -/
theorem cacheTimestampData_fresh (store : Store) (data : List Record) (hf : Bool)
    (hd : Record)
    (hhd : (sortByTime (data.take (splitIndex data))).head? = some hd)
    (hlook : store.lookup (partitionName hd) = none) :
    (cacheTimestampData store data hf).1.lookup (partitionName hd)
      = some (sortByTime (data.take (splitIndex data))) := by
  simp only [cacheTimestampData]
  rw [hhd]
  dsimp only
  rw [hlook]
  dsimp only
  exact storeSet_lookup_self store (partitionName hd) _

/-- C4 (amended): for a non-empty buffer, the flush returns exactly
`records[index:]`, where `index` is the buffer length when the first
and last records have equal month-of-year numbers (whole buffer
persisted, empty remainder), and otherwise one plus the first position
at which consecutive records' month-of-year numbers differ; when no
partition file exists under the computed name, the persisted partition
is exactly the sorted prefix `records[:index]`. -/
theorem c4_flush_split (store : Store) (hf : Bool) (d0 : Record) (tl : List Record) :
    ((cacheTimestampData store (d0 :: tl) hf).2.2
        = (d0 :: tl).drop (splitIndex (d0 :: tl))) ∧
      (monthOf d0.block_time = monthOf (((d0 :: tl).getLastD d0).block_time) →
        splitIndex (d0 :: tl) = tl.length + 1 ∧
          (cacheTimestampData store (d0 :: tl) hf).2.2 = []) ∧
      (∀ i, monthOf d0.block_time ≠ monthOf (((d0 :: tl).getLastD d0).block_time) →
        firstChange ((d0 :: tl).map (fun r => monthOf r.block_time)) = some i →
          splitIndex (d0 :: tl) = i + 1 ∧
            ((d0 :: tl).map (fun r => monthOf r.block_time)).getD i 0 ≠
              ((d0 :: tl).map (fun r => monthOf r.block_time)).getD (i + 1) 0 ∧
            (∀ j, j < i →
              ((d0 :: tl).map (fun r => monthOf r.block_time)).getD j 0 =
                ((d0 :: tl).map (fun r => monthOf r.block_time)).getD (j + 1) 0)) ∧
      (∀ hd, (sortByTime ((d0 :: tl).take (splitIndex (d0 :: tl)))).head? = some hd →
        store.lookup (partitionName hd) = none →
        (cacheTimestampData store (d0 :: tl) hf).1.lookup (partitionName hd)
          = some (sortByTime ((d0 :: tl).take (splitIndex (d0 :: tl))))) := by
  refine ⟨cacheTimestampData_remainder store (d0 :: tl) hf, ?_, ?_, ?_⟩
  · intro h
    have hsi : splitIndex (d0 :: tl) = tl.length + 1 := by
      simp only [splitIndex, if_pos h, List.length_cons]
    refine ⟨hsi, ?_⟩
    rw [cacheTimestampData_remainder, hsi]
    simp
  · intro i hne hfc
    have hsi : splitIndex (d0 :: tl) = i + 1 := by
      simp only [splitIndex, if_neg hne, hfc]
    obtain ⟨h1, h2⟩ := firstChange_spec _ i hfc
    exact ⟨hsi, h1, h2⟩
  · exact fun hd hhd hlook => cacheTimestampData_fresh store (d0 :: tl) hf hd hhd hlook

/-- C4 witness: a January-to-February 2023 buffer is split at index 1
and the February record is returned unflushed. -/
theorem c4_flush_split_witness :
    monthOf (Record.mk 1673740800 1).block_time ≠
        monthOf ((([Record.mk 1673740800 1,
          Record.mk 1675987200 2]).getLastD (Record.mk 1673740800 1)).block_time) ∧
      firstChange (([Record.mk 1673740800 1, Record.mk 1675987200 2]).map
          (fun r => monthOf r.block_time)) = some 0 ∧
      splitIndex [Record.mk 1673740800 1, Record.mk 1675987200 2] = 0 + 1 ∧
      (cacheTimestampData [] [Record.mk 1673740800 1, Record.mk 1675987200 2]
          false).2.2 = [Record.mk 1675987200 2] := by
  refine ⟨by decide, by decide, ?_, ?_⟩
  · exact ((c4_flush_split [] false (Record.mk 1673740800 1)
      [Record.mk 1675987200 2]).2.2.1 0 (by decide) (by decide)).1
  · exact ((c4_flush_split [] false (Record.mk 1673740800 1)
      [Record.mk 1675987200 2]).1).trans (by decide)

/-! ## C6 — merge atomicity on failure (corrected) -/

/-- C6 counterexample: the merge writes the temp file, then unlinks the
original, then renames (utils.py 276-278).  Aborting after the unlink —
after the temp write and before the rename, inside the window the claim
covers — leaves the original partition file deleted, not
byte-identical. -/
theorem c6_atomicity_cex :
    (flushExisting [⟨10, 1⟩] [⟨20, 2⟩] 202301 false).1
        = [FsOp.writeTemp 202301 [⟨10, 1⟩, ⟨20, 2⟩], FsOp.unlinkOrig 202301,
            FsOp.renameTempToOrig 202301] ∧
      (runOps ⟨some [⟨10, 1⟩], none⟩
          ((flushExisting [⟨10, 1⟩] [⟨20, 2⟩] 202301 false).1.take 2)).orig
        = none := by decide

/-- C6 (amended): when a merge rewrites a partition, an abort during or
right after the temp-file write — before the unlink completes — leaves
the original partition byte-identical; but an abort after the unlink
and before the rename leaves the original deleted, the merged data
surviving only in the temp file.  The claimed atomicity holds only up
to the unlink. -/
theorem c6_atomicity (cacheContent df : List Record) (name : Nat) (hf : Bool)
    (merged : List Record)
    (h : (flushExisting cacheContent df name hf).2 = some merged) :
    (runOps ⟨some cacheContent, none⟩
        ((flushExisting cacheContent df name hf).1.take 1)).orig = some cacheContent ∧
      (runOps ⟨some cacheContent, none⟩
        ((flushExisting cacheContent df name hf).1.take 2)).orig = none ∧
      (runOps ⟨some cacheContent, none⟩
        ((flushExisting cacheContent df name hf).1.take 2)).temp = some merged := by
  by_cases hpos : 0 < (mergeFilter hf cacheContent df).length
  · simp only [flushExisting, if_pos hpos] at h ⊢
    obtain rfl : sortByTime (cacheContent ++ mergeFilter hf cacheContent df) = merged :=
      Option.some.inj h
    exact ⟨rfl, rfl, rfl⟩
  · simp only [flushExisting, if_neg hpos] at h
    exact absurd h (by simp)

/-- C6 witness: a concrete rewriting merge, evaluated at the two abort
points. -/
theorem c6_atomicity_witness :
    ((flushExisting [⟨10, 1⟩] [⟨30, 2⟩] 202301 false).2
        = some [⟨10, 1⟩, ⟨30, 2⟩]) ∧
      ((runOps ⟨some [⟨10, 1⟩], none⟩
          ((flushExisting [⟨10, 1⟩] [⟨30, 2⟩] 202301 false).1.take 1)).orig
            = some [⟨10, 1⟩] ∧
        (runOps ⟨some [⟨10, 1⟩], none⟩
          ((flushExisting [⟨10, 1⟩] [⟨30, 2⟩] 202301 false).1.take 2)).orig = none ∧
        (runOps ⟨some [⟨10, 1⟩], none⟩
          ((flushExisting [⟨10, 1⟩] [⟨30, 2⟩] 202301 false).1.take 2)).temp
            = some [⟨10, 1⟩, ⟨30, 2⟩]) :=
  ⟨by decide, c6_atomicity [⟨10, 1⟩] [⟨30, 2⟩] 202301 false [⟨10, 1⟩, ⟨30, 2⟩] (by decide)⟩

/-! ## C7 — end-of-data handling and the §8 scenario -/

/-- Once `done` is true it stays true through the rest of a round. -/
theorem processRound_true_fst (pages : List (List Record)) (buf : List Record) :
    (processRound pages buf true).1 = true := by
  induction pages generalizing buf with
  | nil => rfl
  | cons t rest ih =>
    unfold processRound
    by_cases h : t.length ≠ 100
    · rw [if_pos h]
      by_cases h0 : t.length = 0
      · rw [if_pos h0]
      · rw [if_neg h0]; exact ih _
    · rw [if_neg h]; exact ih _

/-- Round collection only ever appends to the buffer. -/
theorem processRound_extends (pages : List (List Record)) (buf : List Record)
    (done : Bool) : ∃ s, (processRound pages buf done).2 = buf ++ s := by
  induction pages generalizing buf done with
  | nil => exact ⟨[], by simp [processRound]⟩
  | cons t rest ih =>
    unfold processRound
    by_cases h : t.length ≠ 100
    · by_cases h0 : t.length = 0
      · rw [if_pos h, if_pos h0]
        exact ⟨[], by simp⟩
      · rw [if_pos h, if_neg h0]
        obtain ⟨s, hs⟩ := ih (buf ++ t) true
        exact ⟨t ++ s, by rw [hs, List.append_assoc]⟩
    · rw [if_neg h]
      obtain ⟨s, hs⟩ := ih (buf ++ t) done
      exact ⟨t ++ s, by rw [hs, List.append_assoc]⟩

/-- C7: within a round, an empty page stops collection immediately with
`done = true` and is not incorporated; a short non-empty page sets
`done = true` and its records are incorporated into the buffer; and on
the §8 scenario (full pages 1-5, a 37-record page 6, an empty page 7)
with `concurrency_limit = 3` the pipeline issues exactly 6 calls —
pages 1 through 6 — finishing with `done = true` and never requesting
page 7. -/
theorem c7_end_of_data :
    (∀ rest buf d, processRound ([] :: rest) buf d = (true, buf)) ∧
      (∀ t rest buf d, t.length ≠ 100 → t ≠ [] →
        (processRound (t :: rest) buf d).1 = true ∧
          ∃ s, (processRound (t :: rest) buf d).2 = (buf ++ t) ++ s) ∧
      scenarioRun.numCalls = 6 ∧ scenarioRun.done = true ∧
      scenarioRun.requested = [1, 2, 3, 4, 5, 6] ∧ 7 ∉ scenarioRun.requested := by
  refine ⟨?_, ?_, by decide, by decide, by decide, by decide⟩
  · intro rest buf d
    simp [processRound]
  · intro t rest buf d h h0
    unfold processRound
    rw [if_pos h, if_neg (fun hz => h0 (List.length_eq_zero.mp hz))]
    exact ⟨processRound_true_fst rest (buf ++ t), processRound_extends rest (buf ++ t) true⟩

/-- C7 witness: the 37-record page of the scenario, processed as the
only page of a round, sets `done` and lands in the buffer. -/
theorem c7_end_of_data_witness :
    ((List.replicate 37 pageRecord).length ≠ 100 ∧
        List.replicate 37 pageRecord ≠ []) ∧
      (processRound [List.replicate 37 pageRecord] [] false).1 = true ∧
      (∃ s, (processRound [List.replicate 37 pageRecord] [] false).2
        = ([] ++ List.replicate 37 pageRecord) ++ s) := by
  refine ⟨⟨by decide, by decide⟩, ?_⟩
  exact c7_end_of_data.2.1 (List.replicate 37 pageRecord) [] [] false
    (by decide) (by decide)

end Minswap

